import Mathlib

/-!
Verification of the retrieval-augmented chat service (Next.js API routes).

The development shallowly embeds the relevant handlers:
* `app/api/chat/route.ts` (`POST`): the retrieval filter construction, the
  sensitive-topic bypass, empty-retrieval handling and the stream/persist
  ordering, modelled by `chatFilter` and `chatPipeline`.
* `app/api/upload/route.ts` (`POST`): the shared-document version-rollover
  state machine and batched upsert loop, modelled by `runSharedIngest`.
* `app/api/admin/documents/status/route.ts` (`POST`): the paused-document
  registry toggle, modelled by `setDocumentStatus`.
* `app/api/conversations/[conversationId]/route.ts` (`GET`): the
  ownership-checked message read, modelled by `getConversationMessages`.

External stores (Pinecone, the relational DB) are modelled as explicit lists
of records; remote-call failures are injected through Boolean oracles.
Vector values and embeddings are irrelevant to every claim (all queried
filters are metadata filters), so records carry metadata only.
-/

/-- Pinecone metadata record for one document chunk, as written by
`app/api/upload/route.ts` and filtered by `app/api/chat/route.ts`.
Fields that a given upload does not set are `none` (absent in the JSON
metadata object).  The optional `loc_lines_from`/`loc_lines_to` positional
fields set by the text splitter are omitted: no filter and no claim reads
them. -/
structure ChunkMeta where
  source : String
  user_id : Option String
  is_public : Option Bool
  roles : Option (List String)
  version : Option Int
  is_latest : Option Bool
  chunk_index : Option Nat
  text : Option String
deriving DecidableEq, Repr

/-- Metadata written for a chunk of a private upload
(`app/api/upload/route.ts`, the non-shared branch: only `source`,
`user_id`, `chunk_index` and `text` are set). -/
def privateChunkMeta (src uid : String) (ci : Nat) (t : String) : ChunkMeta :=
  { source := src, user_id := some uid, is_public := none, roles := none,
    version := none, is_latest := none, chunk_index := some ci, text := some t }

/-- Metadata written for a chunk of a shared `public` upload. -/
def publicChunkMeta (src : String) (v : Int) (latest : Bool) (ci : Nat) (t : String) :
    ChunkMeta :=
  { source := src, user_id := none, is_public := some true, roles := none,
    version := some v, is_latest := some latest, chunk_index := some ci, text := some t }

/-- Metadata written for a chunk of a shared `roles` upload. -/
def rolesChunkMeta (src : String) (rs : List String) (v : Int) (latest : Bool)
    (ci : Nat) (t : String) : ChunkMeta :=
  { source := src, user_id := none, is_public := none, roles := some rs,
    version := some v, is_latest := some latest, chunk_index := some ci, text := some t }

/-- Deep embedding of the Pinecone metadata-filter expressions the chat route
builds.  A JSON object with several fields is an implicit conjunction; the
code's two-or-three element `$and`/`$or` arrays are rendered as right-nested
binary `cAnd`/`cOr`. -/
inductive Cond where
  | sourceEq (s : String)
  | sourceNin (paused : List String)
  | versionEq (v : Option Int)
  | isPublicTrue
  | isLatestTrue
  | userIdEq (uid : String)
  | rolesIn (rs : List String)
  | cAnd (a b : Cond)
  | cOr (a b : Cond)
deriving DecidableEq, Repr

/-- Pinecone filter semantics on a chunk's metadata.  An equality test on an
absent metadata field does not match; `$nin` on `source` excludes the listed
values; `roles: {$in: rs}` matches when the record's `roles` array shares an
element with `rs`; `versionEq none` models a filter built from an unparseable
version string (JS `NaN`), which matches nothing. -/
def condMatches : Cond → ChunkMeta → Bool
  | Cond.sourceEq s, m => m.source == s
  | Cond.sourceNin ps, m => !(ps.contains m.source)
  | Cond.versionEq o, m =>
      match o with
      | some n => m.version == some n
      | none => false
  | Cond.isPublicTrue, m => m.is_public == some true
  | Cond.isLatestTrue, m => m.is_latest == some true
  | Cond.userIdEq uid, m => m.user_id == some uid
  | Cond.rolesIn rs, m =>
      match m.roles with
      | some l => l.any (fun r => rs.contains r)
      | none => false
  | Cond.cAnd a b, m => condMatches a m && condMatches b m
  | Cond.cOr a b, m => condMatches a m || condMatches b m

/-- Does a filter expression contain a `roles` clause anywhere? -/
def mentionsRoles : Cond → Bool
  | Cond.rolesIn _ => true
  | Cond.cAnd a b => mentionsRoles a || mentionsRoles b
  | Cond.cOr a b => mentionsRoles a || mentionsRoles b
  | _ => false

/-- Does a filter expression contain a private `user_id` clause anywhere? -/
def mentionsUserId : Cond → Bool
  | Cond.userIdEq _ => true
  | Cond.cAnd a b => mentionsUserId a || mentionsUserId b
  | Cond.cOr a b => mentionsUserId a || mentionsUserId b
  | _ => false

/-- JS truthiness of a string: the empty string is falsy. -/
def truthyStr (s : String) : Bool := s != ""

/-- JS truthiness of an optional string field (absent or empty is falsy). -/
def truthyOpt : Option String → Bool
  | none => false
  | some s => truthyStr s

/-- Leading decimal digits of a character list, or `none` if there are none
(the `NaN` case of JS `parseInt`). -/
def leadingDigits (cs : List Char) : Option Nat :=
  let ds := cs.takeWhile Char.isDigit
  if ds.isEmpty then none
  else some (ds.foldl (fun a c => a * 10 + (c.toNat - 48)) 0)

/-- JS `parseInt(s, 10)`: skip leading whitespace, optional sign, then read
leading decimal digits; `none` models `NaN`. -/
def parseIntTen (s : String) : Option Int :=
  let cs := s.data.dropWhile (fun c =>
    c == ' ' || c == Char.ofNat 9 || c == Char.ofNat 10 || c == Char.ofNat 13)
  match cs with
  | '-' :: rest => (leadingDigits rest).map (fun n => -(n : Int))
  | '+' :: rest => (leadingDigits rest).map (fun n => (n : Int))
  | rest => (leadingDigits rest).map (fun n => (n : Int))

/-- The retrieval filter built by the chat route (`app/api/chat/route.ts`,
the `filter` variable): explicit-version mode when both `source` and
`version` are truthy, otherwise the default RBAC mode whose `$or` gains a
roles clause only for a truthy session role.  `baseFilter` is the
paused-source exclusion `{source: {$nin: pausedDocs}}`. -/
def chatFilter (uid : String) (role : Option String) (paused : List String)
    (source version : Option String) : Cond :=
  let base := Cond.sourceNin paused
  if truthyOpt source && truthyOpt version then
    Cond.cAnd base
      (Cond.cAnd (Cond.sourceEq (source.getD ""))
        (Cond.cAnd (Cond.versionEq (parseIntTen (version.getD ""))) Cond.isPublicTrue))
  else
    let orClauses :=
      if truthyOpt role then
        Cond.cOr (Cond.userIdEq uid)
          (Cond.cOr (Cond.cAnd Cond.isPublicTrue Cond.isLatestTrue)
            (Cond.cAnd (Cond.rolesIn [role.getD ""]) Cond.isLatestTrue))
      else
        Cond.cOr (Cond.userIdEq uid)
          (Cond.cAnd Cond.isPublicTrue Cond.isLatestTrue)
    Cond.cAnd orClauses base

/-- Claim C1: in default mode (no explicit source/version pair) the retrieval
filter admits a chunk only if it is private to the requesting principal, or
public and latest, or role-shared with the principal's role and latest; the
roles clause exists only for a non-empty role; and a chunk tagged private to
a different user id never matches. -/
theorem C1_default_filter_access (uid : String) (role : Option String)
    (paused : List String) (source version : Option String) (m : ChunkMeta)
    (hmode : (truthyOpt source && truthyOpt version) = false) :
    (condMatches (chatFilter uid role paused source version) m = true →
       m.user_id = some uid
       ∨ (m.is_public = some true ∧ m.is_latest = some true)
       ∨ (∃ r l, role = some r ∧ r ≠ "" ∧ m.roles = some l ∧ r ∈ l
            ∧ m.is_latest = some true))
    ∧ (truthyOpt role = false →
        mentionsRoles (chatFilter uid role paused source version) = false)
    ∧ (∀ src uid2 ci t, uid2 ≠ uid →
        condMatches (chatFilter uid role paused source version)
          (privateChunkMeta src uid2 ci t) = false) := by
  unfold chatFilter
  rw [hmode]
  simp only [Bool.false_eq_true, if_false]
  cases hrole : truthyOpt role with
  | true =>
    obtain ⟨r, hr, hrne⟩ : ∃ r, role = some r ∧ r ≠ "" := by
      cases role with
      | none => simp [truthyOpt] at hrole
      | some s =>
        refine ⟨s, rfl, ?_⟩
        simpa [truthyOpt, truthyStr] using hrole
    subst hr
    refine ⟨?_, ?_, ?_⟩
    · intro hm
      simp only [condMatches, Bool.and_eq_true, Bool.or_eq_true] at hm
      obtain ⟨h1 | h1 | h1, _⟩ := hm
      · exact Or.inl (by simpa using h1)
      · exact Or.inr (Or.inl (by simpa using h1))
      · refine Or.inr (Or.inr ?_)
        obtain ⟨hrl, hl⟩ := h1
        cases hroles : m.roles with
        | none => simp [condMatches, hroles] at hrl
        | some l =>
          refine ⟨r, l, rfl, hrne, rfl, ?_, by simpa using hl⟩
          simp only [condMatches, hroles, List.any_eq_true] at hrl
          obtain ⟨x, hx, hxr⟩ := hrl
          simp only [List.contains_cons, List.contains_nil, Bool.or_false,
            beq_iff_eq, Option.getD_some] at hxr
          exact hxr ▸ hx
    · intro h
      exact absurd h (by decide)
    · intro src uid2 ci t hne
      simp [condMatches, privateChunkMeta, hne]
  | false =>
    refine ⟨?_, ?_, ?_⟩
    · intro hm
      simp only [condMatches, Bool.and_eq_true, Bool.or_eq_true] at hm
      obtain ⟨h1 | h1, _⟩ := hm
      · exact Or.inl (by simpa using h1)
      · exact Or.inr (Or.inl (by simpa using h1))
    · intro _; simp [mentionsRoles]
    · intro src uid2 ci t hne
      simp [condMatches, privateChunkMeta, hne]

/-- Witness for C1 at the spec's example principal `{id:"u1", role:"sales"}`:
a chunk private to `"u2"` does not match the default filter. -/
theorem C1_witness :
    (truthyOpt none && truthyOpt none) = false
    ∧ ("u2" : String) ≠ "u1"
    ∧ condMatches (chatFilter "u1" (some "sales") [] none none)
        (privateChunkMeta "doc.pdf" "u2" 0 "txt") = false :=
  ⟨by decide, by decide,
    (C1_default_filter_access "u1" (some "sales") [] none none
        (privateChunkMeta "doc.pdf" "u2" 0 "txt") (by decide)).2.2
      "doc.pdf" "u2" 0 "txt" (by decide)⟩

/-- Claim C2: with a truthy source and version the filter is explicit-version
mode: a chunk matches iff it has the given source (not paused), the parsed
version, and `is_public = true`; the filter has no `user_id` and no `roles`
clause, and chunks written by private or roles uploads can never match. -/
theorem C2_explicit_filter (uid : String) (role : Option String)
    (paused : List String) (s vs : String) (m : ChunkMeta)
    (hs : truthyStr s = true) (hv : truthyStr vs = true) :
    (condMatches (chatFilter uid role paused (some s) (some vs)) m = true ↔
       (m.source ∉ paused ∧ m.source = s
         ∧ (∃ n, parseIntTen vs = some n ∧ m.version = some n)
         ∧ m.is_public = some true))
    ∧ mentionsUserId (chatFilter uid role paused (some s) (some vs)) = false
    ∧ mentionsRoles (chatFilter uid role paused (some s) (some vs)) = false
    ∧ (∀ src uid2 ci t,
        condMatches (chatFilter uid role paused (some s) (some vs))
          (privateChunkMeta src uid2 ci t) = false)
    ∧ (∀ src rs v latest ci t,
        condMatches (chatFilter uid role paused (some s) (some vs))
          (rolesChunkMeta src rs v latest ci t) = false) := by
  have hmode : (truthyOpt (some s) && truthyOpt (some vs)) = true := by
    simp [truthyOpt, hs, hv]
  unfold chatFilter
  rw [hmode]
  simp only [if_true, Option.getD_some]
  refine ⟨?_, by simp [mentionsUserId], by simp [mentionsRoles], ?_, ?_⟩
  · cases hp : parseIntTen vs with
    | none =>
      constructor
      · intro hm
        exfalso
        simp [condMatches, hp] at hm
      · rintro ⟨-, -, ⟨n, hn, -⟩, -⟩
        cases hn
    | some n =>
      constructor
      · intro hm
        simp only [condMatches, Bool.and_eq_true, beq_iff_eq,
          Bool.not_eq_true'] at hm
        obtain ⟨hnin, hsrc, hver, hpub⟩ := hm
        exact ⟨by simpa using hnin, hsrc, ⟨n, rfl, hver⟩, hpub⟩
      · rintro ⟨hnin, hsrc, ⟨n', hn', hver⟩, hpub⟩
        obtain rfl : n = n' := by injection hn'
        simp only [condMatches, Bool.and_eq_true, beq_iff_eq, Bool.not_eq_true']
        refine ⟨by simpa using hnin, hsrc, hver, hpub⟩
  · intro src uid2 ci t
    simp [condMatches, privateChunkMeta]
  · intro src rs v latest ci t
    simp [condMatches, rolesChunkMeta]

/-- Witness for C2 at source `"policy.pdf"`, version string `"2"`: a chunk of
a roles upload cannot match the explicit-version filter. -/
theorem C2_witness :
    truthyStr "policy.pdf" = true ∧ truthyStr "2" = true
    ∧ condMatches (chatFilter "u1" (some "sales") [] (some "policy.pdf") (some "2"))
        (rolesChunkMeta "policy.pdf" ["sales"] 2 true 0 "txt") = false :=
  ⟨by decide, by decide,
    (C2_explicit_filter "u1" (some "sales") [] "policy.pdf" "2"
        (rolesChunkMeta "policy.pdf" ["sales"] 2 true 0 "txt")
        (by decide) (by decide)).2.2.2.2
      "policy.pdf" ["sales"] 2 true 0 "txt"⟩

/-- A vector-store record: an id plus chunk metadata.  The embedding values
are never consulted by a metadata filter, so they are not modelled; the
`uuidv4()` ids the upload route generates are modelled as distinct
index-derived names. -/
structure VecRecord where
  id : String
  meta : ChunkMeta
deriving DecidableEq, Repr

/-- The metadata filter of the upload route's rollover queries
(`app/api/upload/route.ts`): same `source`, `is_latest: true`, and shared
access (`is_public: true` or a `roles` field exists). -/
def sharedLatestFilter (src : String) (m : ChunkMeta) : Bool :=
  m.source == src && m.is_latest == some true
    && (m.is_public == some true || m.roles.isSome)

/-- Input of a shared ingestion: the file name, the requested access level
(`"public"` or `"roles"`), the role list already parsed from the
comma-separated `roles` form field, and the chunk texts produced by the
splitter. -/
structure SharedIngestInput where
  fileName : String
  accessLevel : String
  roles : List String
  chunks : List String
deriving DecidableEq, Repr

/-- Pinecone `update({id, setMetadata: {is_latest: false}})` applied to a
store: every record with that id has its `is_latest` flag cleared. -/
def clearFlag (r : VecRecord) : VecRecord :=
  { r with meta := { r.meta with is_latest := some false } }

/-- One per-id metadata update of the rollover loop. -/
def setNotLatest (store : List VecRecord) (id : String) : List VecRecord :=
  store.map (fun r => if r.id == id then clearFlag r else r)

/-- The rollover loop `for (const id of chunkIdsToUpdate) await update(...)`:
sequential per-id updates with no surrounding try/catch, so the first
failing update raises and leaves the store as mutated so far
(`Except.error`). -/
def clearLatest (updateOk : String → Bool) :
    List String → List VecRecord → Except (List VecRecord) (List VecRecord)
  | [], store => Except.ok store
  | id :: ids, store =>
      if updateOk id then clearLatest updateOk ids (setNotLatest store id)
      else Except.error store

/-- The chunk ids the rollover marks as not latest: ids of the matches of the
`topK: 10000` metadata query over the current store. -/
def rolloverIds (inp : SharedIngestInput) (store : List VecRecord) : List String :=
  ((store.filter (fun r => sharedLatestFilter inp.fileName r.meta)).take 10000).map
    (fun r => r.id)

/-- Metadata attached to chunk `ci` (text `t`) of a shared upload at version
`v`: `is_public: true` for a public upload, else the `roles` list; always
`version` and `is_latest: true`. -/
def mkSharedMeta (accessLevel : String) (roles : List String) (src : String)
    (v : Int) (ci : Nat) (t : String) : ChunkMeta :=
  if accessLevel == "public" then publicChunkMeta src v true ci t
  else rolesChunkMeta src roles v true ci t

/-- Fresh id for the `ci`-th new vector (stands in for `uuidv4()`). -/
def newVectorId (ci : Nat) : String := "vec-" ++ toString ci

/-- The records a shared ingestion prepares for upsert, one per chunk. -/
def newChunkRecords (inp : SharedIngestInput) (v : Int) : List VecRecord :=
  inp.chunks.enum.map (fun p =>
    { id := newVectorId p.1, meta := mkSharedMeta inp.accessLevel inp.roles inp.fileName v p.1 p.2 })

/-- Split a list into consecutive batches of `n` (the upload route slices
`vectors` in steps of `batchSize`); fuel-indexed so it computes by kernel
reduction, with fuel `l.length` always sufficient for `n ≥ 1`. -/
def toBatchesGo (n : Nat) : Nat → List VecRecord → List (List VecRecord)
  | 0, _ => []
  | _ + 1, [] => []
  | fuel + 1, x :: xs => (x :: xs).take n :: toBatchesGo n fuel ((x :: xs).drop n)

/-- Batches of size `n` of a record list. -/
def toBatches (n : Nat) (l : List VecRecord) : List (List VecRecord) :=
  toBatchesGo n l.length l

/-- The batched upsert loop from batch number `k` on: each batch is tried in
order; a failed batch is logged and skipped (`catch (batchError)` inside the
loop), a successful batch is appended to the store; earlier batches are
never rolled back. -/
def runBatchesFrom (upsertOk : Nat → Bool) (k : Nat) :
    List (List VecRecord) → List VecRecord → List VecRecord
  | [], st => st
  | b :: bs, st =>
      runBatchesFrom upsertOk (k + 1) bs (if upsertOk k then st ++ b else st)

/-- The whole batched upsert loop (batch numbers from 0). -/
def runBatches (upsertOk : Nat → Bool) (store : List VecRecord)
    (batches : List (List VecRecord)) : List VecRecord :=
  runBatchesFrom upsertOk 0 batches store

/-- The HTTP-level outcome of the upload route. -/
inductive IngestOutcome where
  | ok (message : String)
  | badRequest (message : String)
  | serverError
deriving DecidableEq, Repr

/-- The message the upload route returns on the success path, regardless of
skipped batches. -/
def uploadSuccessMessage (fileName : String) : String :=
  "File \"" ++ fileName ++ "\" uploaded and processed successfully."

/-- The 400 message when a roles upload supplies no roles. -/
def rolesRequiredMessage : String := "Roles must be provided for role-based access."

/-- Shared-upload path of `app/api/upload/route.ts` (`POST`, admin with
`accessLevel` public/roles), against a store modelled as a record list and
failure oracles for the per-id rollover updates and the per-batch upserts.
Phases: query the latest shared version (`topK: 1`, version := found
version, with `|| 0`, plus one, else 1); clear `is_latest` on every matching
chunk id (aborting to the outer catch, a 500, if an update throws); validate
the roles list (a 400 after the rollover already ran); build the new
records; upsert them in batches of 100, skipping failed batches; and return
the fixed success message. -/
def runSharedIngest (updateOk : String → Bool) (upsertOk : Nat → Bool)
    (inp : SharedIngestInput) (store : List VecRecord) :
    IngestOutcome × List VecRecord :=
  let latest := store.filter (fun r => sharedLatestFilter inp.fileName r.meta)
  let afterRollover : Except (List VecRecord) (Int × List VecRecord) :=
    match latest.head? with
    | none => Except.ok (1, store)
    | some r =>
        let v := r.meta.version.getD 0 + 1
        match clearLatest updateOk (rolloverIds inp store) store with
        | Except.error st => Except.error st
        | Except.ok st => Except.ok (v, st)
  match afterRollover with
  | Except.error st => (IngestOutcome.serverError, st)
  | Except.ok (v, st) =>
      if inp.accessLevel == "roles" && inp.roles.isEmpty then
        (IngestOutcome.badRequest rolesRequiredMessage, st)
      else
        let finalStore := runBatches upsertOk st (toBatches 100 (newChunkRecords inp v))
        (IngestOutcome.ok (uploadSuccessMessage inp.fileName), finalStore)

theorem clearFlag_clearFlag (r : VecRecord) : clearFlag (clearFlag r) = clearFlag r := rfl

theorem clearFlag_id (r : VecRecord) : (clearFlag r).id = r.id := rfl

/-- With no update failures the rollover loop is a plain left fold of the
per-id updates. -/
theorem clearLatest_allOk (ids : List String) (store : List VecRecord) :
    clearLatest (fun _ => true) ids store = Except.ok (ids.foldl setNotLatest store) := by
  induction ids generalizing store with
  | nil => rfl
  | cons id ids ih => simpa [clearLatest] using ih (setNotLatest store id)

/-- The fold of per-id updates clears exactly the records whose id is in the
update list. -/
theorem foldl_setNotLatest_eq_map (ids : List String) (store : List VecRecord) :
    ids.foldl setNotLatest store =
      store.map (fun r => if ids.contains r.id then clearFlag r else r) := by
  induction ids generalizing store with
  | nil => simp
  | cons id ids ih =>
      rw [List.foldl_cons, ih, setNotLatest, List.map_map]
      refine List.map_congr_left ?_
      intro r _
      simp only [Function.comp, List.contains_cons]
      by_cases hb : (r.id == id) = true
      · rw [if_pos hb, hb]
        by_cases hc : (ids.contains (clearFlag r).id) = true
        · rw [if_pos hc, if_pos (by simp), clearFlag_clearFlag]
        · rw [if_neg hc, if_pos (by simp)]
      · rw [if_neg hb]
        rw [Bool.not_eq_true] at hb
        rw [hb, Bool.false_or]

/-- If some id in the rollover list has a failing update, the loop raises
(returns `Except.error`). -/
theorem clearLatest_error_of_fail (updateOk : String → Bool) (ids : List String)
    (store : List VecRecord) (h : ∃ id ∈ ids, updateOk id = false) :
    ∃ st, clearLatest updateOk ids store = Except.error st := by
  induction ids generalizing store with
  | nil => obtain ⟨id, hmem, -⟩ := h; cases hmem
  | cons id ids ih =>
      cases hu : updateOk id with
      | false => exact ⟨store, by simp [clearLatest, hu]⟩
      | true =>
          obtain ⟨id2, hmem, hf⟩ := h
          rcases List.mem_cons.mp hmem with rfl | hmem2
          · rw [hu] at hf; cases hf
          · obtain ⟨st, hst⟩ := ih (setNotLatest store id) ⟨id2, hmem2, hf⟩
            exact ⟨st, by simp [clearLatest, hu, hst]⟩

/-- Whatever store the aborted rollover leaves behind consists only of the
original records, some with `is_latest` cleared. -/
theorem clearLatest_error_shape (updateOk : String → Bool) (ids : List String) :
    ∀ store st, clearLatest updateOk ids store = Except.error st →
      ∀ r ∈ st, ∃ r0 ∈ store, r = r0 ∨ r = clearFlag r0 := by
  induction ids with
  | nil => intro store st h; cases h
  | cons id ids ih =>
      intro store st h r hr
      cases hu : updateOk id with
      | false =>
          rw [clearLatest, if_neg (by simp [hu])] at h
          obtain rfl : store = st := by injection h
          exact ⟨r, hr, Or.inl rfl⟩
      | true =>
          rw [clearLatest, if_pos hu] at h
          obtain ⟨r1, hr1, hcase⟩ := ih (setNotLatest store id) st h r hr
          obtain ⟨r0, hr0, hform⟩ := List.mem_map.mp hr1
          by_cases hb : (r0.id == id) = true
          · rw [if_pos hb] at hform
            subst hform
            rcases hcase with rfl | rfl
            · exact ⟨r0, hr0, Or.inr rfl⟩
            · exact ⟨r0, hr0, Or.inr (clearFlag_clearFlag r0).symm⟩
          · rw [if_neg hb] at hform
            subst hform
            exact ⟨r0, hr0, hcase⟩

/-- Every batch produced by `toBatchesGo` only contains elements of the input
list. -/
theorem toBatchesGo_subset (n : Nat) :
    ∀ (fuel : Nat) (xs : List VecRecord) (b : List VecRecord),
      b ∈ toBatchesGo n fuel xs → ∀ x ∈ b, x ∈ xs := by
  intro fuel
  induction fuel with
  | zero => intro xs b hb; cases hb
  | succ fuel ih =>
      intro xs b hb x hx
      cases xs with
      | nil => cases hb
      | cons y ys =>
          rw [toBatchesGo] at hb
          rcases List.mem_cons.mp hb with rfl | hb2
          · exact List.mem_of_mem_take hx
          · exact List.mem_of_mem_drop (ih _ b hb2 x hx)

/-- With enough fuel and a positive batch size, the batches flatten back to
the input list. -/
theorem toBatchesGo_flatten (n : Nat) (hn : 0 < n) :
    ∀ (fuel : Nat) (xs : List VecRecord), xs.length ≤ fuel →
      (toBatchesGo n fuel xs).flatten = xs := by
  intro fuel
  induction fuel with
  | zero =>
      intro xs hle
      have : xs = [] := List.eq_nil_of_length_eq_zero (Nat.le_zero.mp hle)
      subst this; rfl
  | succ fuel ih =>
      intro xs hle
      cases xs with
      | nil => rfl
      | cons y ys =>
          rw [toBatchesGo, List.flatten_cons, ih ((y :: ys).drop n) (by
            simp only [List.length_drop, List.length_cons] at *
            omega)]
          exact List.take_append_drop n (y :: ys)

theorem toBatches_flatten (l : List VecRecord) : (toBatches 100 l).flatten = l :=
  toBatchesGo_flatten 100 (by omega) l.length l (Nat.le_refl _)

/-- With no upsert failures the loop appends every batch. -/
theorem runBatchesFrom_allOk :
    ∀ (bs : List (List VecRecord)) (k : Nat) (st : List VecRecord),
      runBatchesFrom (fun _ => true) k bs st = st ++ bs.flatten := by
  intro bs
  induction bs with
  | nil => intro k st; simp [runBatchesFrom]
  | cons b bs ih =>
      intro k st
      rw [runBatchesFrom, if_pos rfl, ih, List.flatten_cons, List.append_assoc]

/-- Every record surviving the batched upsert loop is either an original
store record or a member of one of the batches. -/
theorem runBatchesFrom_mem (upsertOk : Nat → Bool) :
    ∀ (bs : List (List VecRecord)) (k : Nat) (st : List VecRecord) (r : VecRecord),
      r ∈ runBatchesFrom upsertOk k bs st → r ∈ st ∨ ∃ b ∈ bs, r ∈ b := by
  intro bs
  induction bs with
  | nil => intro k st r hr; exact Or.inl hr
  | cons b bs ih =>
      intro k st r hr
      rw [runBatchesFrom] at hr
      rcases ih (k + 1) _ r hr with hmem | ⟨b2, hb2, hrb⟩
      · by_cases hk : upsertOk k = true
        · rw [if_pos hk] at hmem
          rcases List.mem_append.mp hmem with h | h
          · exact Or.inl h
          · exact Or.inr ⟨b, List.mem_cons_self b bs, h⟩
        · rw [if_neg hk] at hmem
          exact Or.inl hmem
      · exact Or.inr ⟨b2, List.mem_cons_of_mem b hb2, hrb⟩

/-- Shape of every record a shared ingestion prepares: the new version
number, `is_latest: true`, and the uploaded file as `source`. -/
theorem newChunkRecords_meta (inp : SharedIngestInput) (v : Int) :
    ∀ r ∈ newChunkRecords inp v,
      r.meta.version = some v ∧ r.meta.is_latest = some true
        ∧ r.meta.source = inp.fileName := by
  intro r hr
  obtain ⟨p, -, rfl⟩ := List.mem_map.mp hr
  by_cases h : (inp.accessLevel == "public") = true
  · simp [mkSharedMeta, h, publicChunkMeta]
  · simp [mkSharedMeta, h, rolesChunkMeta]

set_option maxRecDepth 8192 in
/-- Claim C3 (code-bug evidence): upsert-batch failures are skipped without
rolling back earlier batches, but the route still returns the unconditional
success message.  First scenario: a one-batch upload whose only batch fails
— nothing is stored, yet the outcome is `ok` with the success message.
Second scenario: 150 chunks (two batches) where batch 1 fails — batch 0
stays upserted (no rollback), batch 1 is skipped, and the message still
claims full success. -/
theorem C3_batch_failure_reported_as_success :
    runSharedIngest (fun _ => true) (fun _ => false)
        ⟨"report.pdf", "public", [], ["chunk text"]⟩ [] =
      (IngestOutcome.ok (uploadSuccessMessage "report.pdf"), [])
    ∧ runSharedIngest (fun _ => true) (fun k => k == 0)
        ⟨"report.pdf", "public", [], List.replicate 150 "c"⟩ [] =
      (IngestOutcome.ok (uploadSuccessMessage "report.pdf"),
       (newChunkRecords ⟨"report.pdf", "public", [], List.replicate 150 "c"⟩ 1).take 100) := by
  constructor
  · rfl
  · rfl

/-- Claim C4 (amended): when clearing `is_latest` fails for one of the
previous-latest chunk ids, the exception escapes the rollover loop (there is
no per-id catch): the request ends in the outer catch as a 500 and the
Writing phase never runs — the final store holds only original records, some
with `is_latest` cleared, and no new-version chunk. -/
theorem C4_rollover_update_failure_aborts (updateOk : String → Bool)
    (upsertOk : Nat → Bool) (inp : SharedIngestInput) (store : List VecRecord)
    (hfail : ∃ id ∈ rolloverIds inp store, updateOk id = false) :
    (runSharedIngest updateOk upsertOk inp store).1 = IngestOutcome.serverError
    ∧ ∀ r ∈ (runSharedIngest updateOk upsertOk inp store).2,
        ∃ r0 ∈ store, r = r0 ∨ r = clearFlag r0 := by
  obtain ⟨id, hmem, hf⟩ := hfail
  have hne : store.filter (fun r => sharedLatestFilter inp.fileName r.meta) ≠ [] := by
    intro h
    rw [rolloverIds, h] at hmem
    cases hmem
  obtain ⟨a, l, hal⟩ := List.exists_cons_of_ne_nil hne
  obtain ⟨st, hst⟩ :=
    clearLatest_error_of_fail updateOk (rolloverIds inp store) store ⟨id, hmem, hf⟩
  have heq : runSharedIngest updateOk upsertOk inp store = (IngestOutcome.serverError, st) := by
    simp only [runSharedIngest, hal, List.head?_cons, hst]
  rw [heq]
  exact ⟨rfl, clearLatest_error_shape updateOk (rolloverIds inp store) store st hst⟩

/-- Counterexample to claim C4 as stated: with one previous-latest public
chunk of "policy.pdf" whose `is_latest`-clearing update fails, the request
aborts as a 500 with the store unchanged: the remaining updates and the
Writing phase do not proceed and no new version is written. -/
theorem C4_counterexample :
    (runSharedIngest (fun _ => false) (fun _ => true)
        ⟨"policy.pdf", "public", [], ["new text"]⟩
        [⟨"old-0", publicChunkMeta "policy.pdf" 1 true 0 "old text"⟩]).1
      = IngestOutcome.serverError
    ∧ (runSharedIngest (fun _ => false) (fun _ => true)
        ⟨"policy.pdf", "public", [], ["new text"]⟩
        [⟨"old-0", publicChunkMeta "policy.pdf" 1 true 0 "old text"⟩]).2
      = [⟨"old-0", publicChunkMeta "policy.pdf" 1 true 0 "old text"⟩] := by
  constructor
  · rfl
  · rfl

/-- Witness for C4 (amended) at the same concrete input. -/
theorem C4_witness :
    (∃ id ∈ rolloverIds ⟨"policy.pdf", "public", [], ["new text"]⟩
        [⟨"old-0", publicChunkMeta "policy.pdf" 1 true 0 "old text"⟩],
        (fun _ => false : String → Bool) id = false)
    ∧ (runSharedIngest (fun _ => false) (fun _ => true)
        ⟨"policy.pdf", "public", [], ["new text"]⟩
        [⟨"old-0", publicChunkMeta "policy.pdf" 1 true 0 "old text"⟩]).1
      = IngestOutcome.serverError :=
  ⟨by decide,
    (C4_rollover_update_failure_aborts (fun _ => false) (fun _ => true)
      ⟨"policy.pdf", "public", [], ["new text"]⟩
      [⟨"old-0", publicChunkMeta "policy.pdf" 1 true 0 "old text"⟩] (by decide)).1⟩

/-- For a store whose record ids are distinct and whose matching-chunk count
fits in the `topK: 10000` window, membership in the rollover id list is
exactly the rollover filter. -/
theorem rolloverIds_contains (inp : SharedIngestInput) (store : List VecRecord)
    (hids : (store.map (fun r => r.id)).Nodup)
    (hcount : (store.filter (fun r => sharedLatestFilter inp.fileName r.meta)).length ≤ 10000) :
    ∀ r ∈ store,
      (rolloverIds inp store).contains r.id = sharedLatestFilter inp.fileName r.meta := by
  intro r hr
  rw [rolloverIds, List.take_of_length_le hcount]
  cases hp : sharedLatestFilter inp.fileName r.meta with
  | true =>
      have h1 : r ∈ store.filter (fun r => sharedLatestFilter inp.fileName r.meta) :=
        List.mem_filter.mpr ⟨hr, hp⟩
      have h2 := List.mem_map_of_mem (fun r => r.id) h1
      simpa using h2
  | false =>
      cases hc : ((store.filter (fun r => sharedLatestFilter inp.fileName r.meta)).map
          (fun r => r.id)).contains r.id with
      | false => rfl
      | true =>
          exfalso
          have h1 : r.id ∈ (store.filter
              (fun r => sharedLatestFilter inp.fileName r.meta)).map (fun r => r.id) := by
            simpa using hc
          obtain ⟨r2, hr2, hid⟩ := List.mem_map.mp h1
          have hr2f := List.mem_filter.mp hr2
          have : r2 = r := List.inj_on_of_nodup_map hids hr2f.1 hr hid
          rw [this] at hr2f
          rw [hr2f.2] at hp
          cases hp

/-- Claim C5: versions of a shared ingestion.  With distinct record ids, at
most 10000 matching chunks, a valid access request, and no update/upsert
failures: if no latest shared chunk of the source exists, the new chunks are
written at version 1; if latest shared chunks exist, all at version `v`,
then every previously-latest chunk is cleared and the new chunks are written
at version `v + 1`; every written chunk carries exactly the new version,
`is_latest: true` and the source name. -/
theorem C5_shared_version_rollover (inp : SharedIngestInput)
    (store : List VecRecord) (v : Int)
    (hacc : (inp.accessLevel == "roles" && inp.roles.isEmpty) = false)
    (hids : (store.map (fun r => r.id)).Nodup)
    (hcount : (store.filter (fun r => sharedLatestFilter inp.fileName r.meta)).length ≤ 10000) :
    (store.filter (fun r => sharedLatestFilter inp.fileName r.meta) = [] →
       runSharedIngest (fun _ => true) (fun _ => true) inp store =
         (IngestOutcome.ok (uploadSuccessMessage inp.fileName),
          store ++ newChunkRecords inp 1))
    ∧ (store.filter (fun r => sharedLatestFilter inp.fileName r.meta) ≠ [] →
       (∀ r ∈ store.filter (fun r => sharedLatestFilter inp.fileName r.meta),
          r.meta.version = some v) →
       runSharedIngest (fun _ => true) (fun _ => true) inp store =
         (IngestOutcome.ok (uploadSuccessMessage inp.fileName),
          store.map (fun r =>
              if sharedLatestFilter inp.fileName r.meta then clearFlag r else r)
            ++ newChunkRecords inp (v + 1)))
    ∧ (∀ n : Int, ∀ r ∈ newChunkRecords inp n,
        r.meta.version = some n ∧ r.meta.is_latest = some true
          ∧ r.meta.source = inp.fileName)
    ∧ (∀ r : VecRecord, (clearFlag r).meta.is_latest = some false) := by
  refine ⟨?_, ?_, fun n => newChunkRecords_meta inp n, fun r => rfl⟩
  · intro hfe
    simp only [runSharedIngest, hfe, List.head?_nil]
    rw [if_neg (by simp [hacc])]
    rw [runBatches, runBatchesFrom_allOk, toBatches_flatten]
  · intro hne hv
    obtain ⟨a, l, hal⟩ := List.exists_cons_of_ne_nil hne
    have hva : a.meta.version = some v := hv a (hal ▸ List.mem_cons_self a l)
    have hclear :
        clearLatest (fun _ => true) (rolloverIds inp store) store =
          Except.ok (store.map (fun r =>
            if sharedLatestFilter inp.fileName r.meta then clearFlag r else r)) := by
      rw [clearLatest_allOk, foldl_setNotLatest_eq_map]
      refine congrArg Except.ok (List.map_congr_left ?_)
      intro r hr
      rw [rolloverIds_contains inp store hids hcount r hr]
    simp only [runSharedIngest, hal, List.head?_cons, hclear]
    rw [if_neg (by simp [hacc])]
    rw [runBatches, runBatchesFrom_allOk, toBatches_flatten, hva]
    simp

/-- Witness for C5: re-ingesting "policy.pdf" (one latest public chunk at
version 1) writes the new chunk at version 2 and clears the old one. -/
theorem C5_witness :
    runSharedIngest (fun _ => true) (fun _ => true)
        ⟨"policy.pdf", "public", [], ["t"]⟩
        [⟨"old-0", publicChunkMeta "policy.pdf" 1 true 0 "old"⟩] =
      (IngestOutcome.ok (uploadSuccessMessage "policy.pdf"),
       [⟨"old-0", publicChunkMeta "policy.pdf" 1 true 0 "old"⟩].map
           (fun r => if sharedLatestFilter "policy.pdf" r.meta then clearFlag r else r)
         ++ newChunkRecords ⟨"policy.pdf", "public", [], ["t"]⟩ (1 + 1)) :=
  (C5_shared_version_rollover ⟨"policy.pdf", "public", [], ["t"]⟩
      [⟨"old-0", publicChunkMeta "policy.pdf" 1 true 0 "old"⟩] 1
      (by decide) (by decide) (by decide)).2.1 (by decide) (by decide)

/-- JS `toLowerCase()` modelled character-wise. -/
def lowerStr (s : String) : String := String.mk (s.data.map Char.toLower)

/-- Is `pre` a prefix of the character list? (helper for substring search). -/
def charsPrefix : List Char → List Char → Bool
  | [], _ => true
  | _ :: _, [] => false
  | a :: as, b :: bs => a == b && charsPrefix as bs

/-- Does the character list contain `needle` as a contiguous run?
(JS `String.includes`). -/
def charsInfix (needle : List Char) : List Char → Bool
  | [] => charsPrefix needle []
  | b :: bs => charsPrefix needle (b :: bs) || charsInfix needle bs

/-- JS `hay.includes(needle)`. -/
def strIncludes (hay needle : String) : Bool := charsInfix needle.data hay.data

/-- The fixed sensitive-keyword list of the chat route. -/
def sensitiveKeywords : List String :=
  ["harassment", "fraud", "illegal", "unethical", "whistleblower",
   "discrimination", "misconduct"]

/-- `sensitiveKeywords.some(k => query.toLowerCase().includes(k))`. -/
def isSensitiveQuery (query : String) : Bool :=
  sensitiveKeywords.any (fun k => strIncludes (lowerStr query) k)

/-- The canned safety answer streamed by the sensitive-topic bypass. -/
def safeResponseContent : String :=
  "It sounds like you are asking about a serious matter. It is important that such concerns are reported through the proper channels to ensure they are handled with confidentiality and care.\n\n**Please do not share sensitive personal details or specifics of the situation with this AI assistant.**\n\nFor any concerns related to harassment, fraud, discrimination, or other potential misconduct, please follow the official company procedure:\n1.  **Contact HR Directly:** You can reach out to the Human Resources department at hr@corporate-compass.com.\n2.  **Anonymous Reporting Line:** The company provides an anonymous hotline for reporting sensitive issues. You can access it at the company\x27s official whistleblower portal or by calling (800) 555-1234.\n3.  **Review Company Policy:** For more details, please refer to the \"Code of Conduct\" and \"Whistleblower Policy\" documents.\n\nYour confidentiality will be protected to the fullest extent possible."

/-- The fixed reply when retrieval returns no matches. -/
def noRelevantInfoMessage : String :=
  "I couldn\x27t find any relevant information in the documents for your query."

/-- A chat request body after zod validation (`chatRequestSchema`): absent
optional fields are `none`; `persona` defaults to "default" at destructuring. -/
structure ChatRequest where
  query : String
  conversationId : Option String
  source : Option String
  version : Option String
  persona : Option String
deriving DecidableEq, Repr

/-- One retrieved chunk as mapped from a Pinecone match (`relevantDocs`). -/
structure RetrievedDoc where
  pageContent : String
  meta : ChunkMeta
deriving DecidableEq, Repr

/-- Externally visible steps of one chat request, in execution order:
database inserts, history load, the embedding and vector-store calls, the
generation call, and the end of the token stream. -/
inductive ChatEvent where
  | insertConversation (title : String)
  | loadHistory
  | insertUserMessage (content : String)
  | embedQuery
  | vectorQuery
  | invokeGeneration
  | streamDrained
  | insertAssistantMessage (content : String)
  | insertSources (count : Nat)
deriving DecidableEq, Repr

/-- The HTTP response of the chat route: either a streamed text body with
the retrieved docs encoded in the `X-Source-Documents` header, or the JSON
body `{response, sources}` of the empty-retrieval branch. -/
inductive ChatResponse where
  | stream (body : String) (sources : List RetrievedDoc)
  | json (response : String) (sources : List RetrievedDoc)
deriving DecidableEq, Repr

/-- The title given to a new conversation: first 50 characters of the query
(`query.substring(0, 50)`). -/
def titleOf (query : String) : String := String.mk (query.data.take 50)

/-- The chat route `POST` after validation (`app/api/chat/route.ts`),
returning the response and the ordered trace of externally visible steps.
`retrieved` stands for the top-5 result of the vector query and `genText`
for the full drained output of the generation stream (the accumulator at
flush time).  The sensitive bypass runs only for the default persona; it
persists the user message and the canned answer and streams the canned text
with an empty sources header.  Otherwise: conversation create-or-load, user
message insert, embed, vector query; an empty result short-circuits to the
fixed JSON reply; else generation is invoked, the stream drained, and at
flush a non-empty accumulator is written as the assistant message followed
by its source rows. -/
def chatPipeline (req : ChatRequest) (retrieved : List RetrievedDoc)
    (genText : String) : ChatResponse × List ChatEvent :=
  let persona := req.persona.getD "default"
  if isSensitiveQuery req.query && persona == "default" then
    let convEv :=
      match req.conversationId with
      | some _ => []
      | none => [ChatEvent.insertConversation "Sensitive Inquiry"]
    (ChatResponse.stream safeResponseContent [],
     convEv ++ [ChatEvent.insertUserMessage req.query,
                ChatEvent.insertAssistantMessage safeResponseContent])
  else
    let convEv :=
      match req.conversationId with
      | some _ => [ChatEvent.loadHistory]
      | none => [ChatEvent.insertConversation (titleOf req.query)]
    let pre := convEv ++ [ChatEvent.insertUserMessage req.query,
                          ChatEvent.embedQuery, ChatEvent.vectorQuery]
    if retrieved.isEmpty then
      (ChatResponse.json noRelevantInfoMessage [], pre)
    else
      let post :=
        if genText == "" then []
        else
          [ChatEvent.insertAssistantMessage genText]
            ++ (if retrieved.isEmpty then [] else [ChatEvent.insertSources retrieved.length])
      (ChatResponse.stream genText retrieved,
       pre ++ [ChatEvent.invokeGeneration, ChatEvent.streamDrained] ++ post)

/-- Recognizer for user-message inserts. -/
def isUserMessageEvent : ChatEvent → Bool
  | ChatEvent.insertUserMessage _ => true
  | _ => false

/-- Recognizer for assistant-message inserts. -/
def isAssistantMessageEvent : ChatEvent → Bool
  | ChatEvent.insertAssistantMessage _ => true
  | _ => false

/-- Recognizer for the generation call. -/
def isGenerationEvent : ChatEvent → Bool
  | ChatEvent.invokeGeneration => true
  | _ => false

/-- Recognizer for the end of the token stream. -/
def isDrainEvent : ChatEvent → Bool
  | ChatEvent.streamDrained => true
  | _ => false

/-- Recognizer for source-attribution inserts. -/
def isSourcesEvent : ChatEvent → Bool
  | ChatEvent.insertSources _ => true
  | _ => false

/-- Recognizer for the embedding call. -/
def isEmbedEvent : ChatEvent → Bool
  | ChatEvent.embedQuery => true
  | _ => false

/-- Recognizer for the vector-store query. -/
def isVectorQueryEvent : ChatEvent → Bool
  | ChatEvent.vectorQuery => true
  | _ => false

/-- Every event satisfying `p` occurs strictly before every event satisfying
`q` in the trace. -/
def eventsOrdered (p q : ChatEvent → Bool) (evs : List ChatEvent) : Prop :=
  ∀ (i j : Nat) (hi : i < evs.length) (hj : j < evs.length),
    p evs[i] = true → q evs[j] = true → i < j

/-- A trace with no `q`-event satisfies any `eventsOrdered _ q`. -/
theorem eventsOrdered_of_no_q (p q : ChatEvent → Bool) (evs : List ChatEvent)
    (h : ∀ e ∈ evs, q e = false) : eventsOrdered p q evs := by
  intro i j hi hj hp hq
  have := h evs[j] (evs.getElem_mem hj)
  rw [this] at hq
  cases hq

/-- If no event of the left part satisfies `q` and no event of the right
part satisfies `p`, then all `p`-events precede all `q`-events. -/
theorem eventsOrdered_append (p q : ChatEvent → Bool) (l r : List ChatEvent)
    (hql : ∀ e ∈ l, q e = false) (hpr : ∀ e ∈ r, p e = false) :
    eventsOrdered p q (l ++ r) := by
  intro i j hi hj hp hq
  have hilen : i < l.length := by
    by_contra hge
    rw [Nat.not_lt] at hge
    have hir : i - l.length < r.length := by
      rw [List.length_append] at hi
      omega
    rw [List.getElem_append_right hge] at hp
    have := hpr _ (r.getElem_mem hir)
    rw [this] at hp
    cases hp
  have hjlen : l.length ≤ j := by
    by_contra hlt
    rw [Nat.not_le] at hlt
    rw [List.getElem_append_left hlt] at hq
    have := hql _ (l.getElem_mem hlt)
    rw [this] at hq
    cases hq
  omega

/-- Claim C6 (amended: the bypass requires the default persona): a sensitive
query under the default persona short-circuits the pipeline: the response is
the canned safety text with an empty sources list, exactly one user message
(the query) and one assistant message (the safety text) are persisted, and
no embedding, vector query or generation happens. -/
theorem C6_sensitive_bypass (req : ChatRequest) (retrieved : List RetrievedDoc)
    (genText : String) (hq : isSensitiveQuery req.query = true)
    (hp : req.persona.getD "default" = "default") :
    (chatPipeline req retrieved genText).1 = ChatResponse.stream safeResponseContent []
    ∧ (chatPipeline req retrieved genText).2.filter isUserMessageEvent
        = [ChatEvent.insertUserMessage req.query]
    ∧ (chatPipeline req retrieved genText).2.filter isAssistantMessageEvent
        = [ChatEvent.insertAssistantMessage safeResponseContent]
    ∧ ∀ e ∈ (chatPipeline req retrieved genText).2,
        isEmbedEvent e = false ∧ isVectorQueryEvent e = false
          ∧ isGenerationEvent e = false := by
  simp only [chatPipeline]
  rw [hp, hq]
  simp only [Bool.true_and, beq_self_eq_true, if_true]
  cases req.conversationId <;>
    simp [List.filter, isUserMessageEvent, isAssistantMessageEvent,
      isEmbedEvent, isVectorQueryEvent, isGenerationEvent]

/-- Counterexample to claim C6 as stated: a query containing "harassment"
sent with a non-default persona is not bypassed — the pipeline embeds and
queries the vector store, and the response is not the safety text. -/
theorem C6_counterexample :
    isSensitiveQuery "harassment" = true
    ∧ (chatPipeline ⟨"harassment", none, none, none, some "hr"⟩ [] "").1
        ≠ ChatResponse.stream safeResponseContent []
    ∧ ChatEvent.embedQuery
        ∈ (chatPipeline ⟨"harassment", none, none, none, some "hr"⟩ [] "").2
    ∧ ChatEvent.vectorQuery
        ∈ (chatPipeline ⟨"harassment", none, none, none, some "hr"⟩ [] "").2 := by
  decide

/-- Witness for C6 (amended) on a concrete sensitive query with no persona
field. -/
theorem C6_witness :
    isSensitiveQuery "Tell me about harassment" = true
    ∧ ((⟨"Tell me about harassment", none, none, none, none⟩ :
          ChatRequest).persona.getD "default") = "default"
    ∧ (chatPipeline ⟨"Tell me about harassment", none, none, none, none⟩ [] "").1
        = ChatResponse.stream safeResponseContent [] :=
  ⟨by decide, by decide,
    (C6_sensitive_bypass ⟨"Tell me about harassment", none, none, none, none⟩ [] ""
      (by decide) (by decide)).1⟩

/-- Claim C7: a non-bypassed request whose vector query returns no matches
gets the fixed no-relevant-information JSON reply with an empty sources
list; generation is never invoked and no source-attribution rows are
written. -/
theorem C7_empty_retrieval (req : ChatRequest) (genText : String)
    (hbp : (isSensitiveQuery req.query
        && (req.persona.getD "default") == "default") = false) :
    (chatPipeline req [] genText).1 = ChatResponse.json noRelevantInfoMessage []
    ∧ ChatEvent.invokeGeneration ∉ (chatPipeline req [] genText).2
    ∧ ∀ n, ChatEvent.insertSources n ∉ (chatPipeline req [] genText).2 := by
  simp only [chatPipeline]
  rw [hbp]
  simp only [Bool.false_eq_true, if_false, List.isEmpty_nil, if_true]
  cases req.conversationId <;> simp

/-- Witness for C7 on a concrete harmless query. -/
theorem C7_witness :
    (isSensitiveQuery "hello"
        && (((⟨"hello", none, none, none, none⟩ : ChatRequest).persona).getD "default")
          == "default") = false
    ∧ (chatPipeline ⟨"hello", none, none, none, none⟩ [] "").1
        = ChatResponse.json noRelevantInfoMessage [] :=
  ⟨by decide,
    (C7_empty_retrieval ⟨"hello", none, none, none, none⟩ "" (by decide)).1⟩

/-- Claim C9: in a non-bypassed request that reaches generation (non-empty
retrieval), the user message is persisted before the generation call, and
the assistant message and its sources are only persisted after the stream
is fully drained, the message before its sources. -/
theorem C9_persistence_ordering (req : ChatRequest) (retrieved : List RetrievedDoc)
    (genText : String)
    (hbp : (isSensitiveQuery req.query
        && (req.persona.getD "default") == "default") = false)
    (hne : retrieved ≠ []) :
    ChatEvent.insertUserMessage req.query ∈ (chatPipeline req retrieved genText).2
    ∧ ChatEvent.invokeGeneration ∈ (chatPipeline req retrieved genText).2
    ∧ ChatEvent.streamDrained ∈ (chatPipeline req retrieved genText).2
    ∧ eventsOrdered isUserMessageEvent isGenerationEvent
        (chatPipeline req retrieved genText).2
    ∧ eventsOrdered isDrainEvent isAssistantMessageEvent
        (chatPipeline req retrieved genText).2
    ∧ eventsOrdered isAssistantMessageEvent isSourcesEvent
        (chatPipeline req retrieved genText).2 := by
  have hie : retrieved.isEmpty = false := by
    cases retrieved with
    | nil => exact absurd rfl hne
    | cons a l => rfl
  simp only [chatPipeline]
  rw [hbp]
  simp only [Bool.false_eq_true, if_false, hie, if_true]
  cases req.conversationId with
  | none =>
      cases hg : genText == "" with
      | true =>
          simp only [if_true, List.cons_append, List.nil_append, List.append_nil,
            List.append_assoc]
          refine ⟨by simp, by simp, by simp, ?_, ?_, ?_⟩
          · exact eventsOrdered_append _ _ [_, _, _, _] _
              (by intro e he; fin_cases he <;> rfl)
              (by intro e he; fin_cases he <;> rfl)
          · exact eventsOrdered_of_no_q _ _ _ (by intro e he; fin_cases he <;> rfl)
          · exact eventsOrdered_of_no_q _ _ _ (by intro e he; fin_cases he <;> rfl)
      | false =>
          simp only [Bool.false_eq_true, if_false, hie, List.cons_append,
            List.nil_append, List.append_nil, List.append_assoc]
          refine ⟨by simp, by simp, by simp, ?_, ?_, ?_⟩
          · exact eventsOrdered_append _ _ [_, _, _, _] _
              (by intro e he; fin_cases he <;> rfl)
              (by intro e he; fin_cases he <;> rfl)
          · exact eventsOrdered_append _ _ [_, _, _, _, _, _] _
              (by intro e he; fin_cases he <;> rfl)
              (by intro e he; fin_cases he <;> rfl)
          · exact eventsOrdered_append _ _ [_, _, _, _, _, _, _] _
              (by intro e he; fin_cases he <;> rfl)
              (by intro e he; fin_cases he; rfl)
  | some cid =>
      cases hg : genText == "" with
      | true =>
          simp only [if_true, List.cons_append, List.nil_append, List.append_nil,
            List.append_assoc]
          refine ⟨by simp, by simp, by simp, ?_, ?_, ?_⟩
          · exact eventsOrdered_append _ _ [_, _, _, _] _
              (by intro e he; fin_cases he <;> rfl)
              (by intro e he; fin_cases he <;> rfl)
          · exact eventsOrdered_of_no_q _ _ _ (by intro e he; fin_cases he <;> rfl)
          · exact eventsOrdered_of_no_q _ _ _ (by intro e he; fin_cases he <;> rfl)
      | false =>
          simp only [Bool.false_eq_true, if_false, hie, List.cons_append,
            List.nil_append, List.append_nil, List.append_assoc]
          refine ⟨by simp, by simp, by simp, ?_, ?_, ?_⟩
          · exact eventsOrdered_append _ _ [_, _, _, _] _
              (by intro e he; fin_cases he <;> rfl)
              (by intro e he; fin_cases he <;> rfl)
          · exact eventsOrdered_append _ _ [_, _, _, _, _, _] _
              (by intro e he; fin_cases he <;> rfl)
              (by intro e he; fin_cases he <;> rfl)
          · exact eventsOrdered_append _ _ [_, _, _, _, _, _, _] _
              (by intro e he; fin_cases he <;> rfl)
              (by intro e he; fin_cases he; rfl)

/-- Witness for C9 on a concrete request with one retrieved chunk. -/
theorem C9_witness :
    (isSensitiveQuery "hello"
        && (((⟨"hello", none, none, none, none⟩ : ChatRequest).persona).getD "default")
          == "default") = false
    ∧ ([⟨"doc", privateChunkMeta "d.pdf" "u1" 0 "doc"⟩] : List RetrievedDoc) ≠ []
    ∧ ChatEvent.invokeGeneration ∈ (chatPipeline ⟨"hello", none, none, none, none⟩
        [⟨"doc", privateChunkMeta "d.pdf" "u1" 0 "doc"⟩] "answer").2 :=
  ⟨by decide, by decide,
    (C9_persistence_ordering ⟨"hello", none, none, none, none⟩
      [⟨"doc", privateChunkMeta "d.pdf" "u1" 0 "doc"⟩] "answer"
      (by decide) (by decide)).2.1⟩

/-- JS `Array.from(new Set(docs))` with an explicit seen-set accumulator:
duplicates are dropped, first occurrences kept in order. -/
def jsSetDedupAux (seen : List String) : List String → List String
  | [] => []
  | x :: xs =>
      if seen.contains x then jsSetDedupAux seen xs
      else x :: jsSetDedupAux (seen ++ [x]) xs

/-- `savePausedDocs` (`app/api/admin/documents/status/route.ts`) persists
`Array.from(new Set(docs))`. -/
def savePausedDocs (docs : List String) : List String := jsSetDedupAux [] docs

/-- The admin status route `POST` after validation: append the source when
pausing a not-yet-paused source, filter it out when activating a paused one,
otherwise leave the list alone; then persist through `savePausedDocs`. -/
def setDocumentStatus (pausedDocs : List String) (source status : String) :
    List String :=
  let isPaused := pausedDocs.contains source
  let docs :=
    if status == "paused" && !isPaused then pausedDocs ++ [source]
    else if status == "active" && isPaused then pausedDocs.filter (fun d => d != source)
    else pausedDocs
  savePausedDocs docs

/-- Dedup output: no duplicates, and nothing from the seen set. -/
theorem jsSetDedupAux_nodup (l : List String) :
    ∀ seen : List String, (jsSetDedupAux seen l).Nodup
      ∧ ∀ x ∈ jsSetDedupAux seen l, ¬x ∈ seen := by
  induction l with
  | nil => intro seen; exact ⟨List.nodup_nil, fun x hx => absurd hx (List.not_mem_nil x)⟩
  | cons x xs ih =>
      intro seen
      by_cases hc : (seen.contains x) = true
      · rw [jsSetDedupAux, if_pos hc]
        exact ih seen
      · rw [jsSetDedupAux, if_neg hc]
        obtain ⟨hnd, hout⟩ := ih (seen ++ [x])
        refine ⟨List.nodup_cons.mpr ⟨?_, hnd⟩, ?_⟩
        · intro hx
          exact hout x hx (by simp)
        · intro y hy
          rcases List.mem_cons.mp hy with rfl | hy2
          · intro hmem
            exact hc (by simpa using hmem)
          · intro hmem
            exact hout y hy2 (by simp [hmem])

/-- Dedup of a duplicate-free list whose elements avoid the seen set is the
identity. -/
theorem jsSetDedupAux_id (l : List String) :
    ∀ seen : List String, l.Nodup → (∀ x ∈ l, ¬x ∈ seen) →
      jsSetDedupAux seen l = l := by
  induction l with
  | nil => intro seen _ _; rfl
  | cons x xs ih =>
      intro seen hnd hout
      have hc : (seen.contains x) = false := by
        cases hc2 : seen.contains x with
        | false => rfl
        | true => exact absurd (by simpa using hc2) (hout x (List.mem_cons_self x xs))
      rw [jsSetDedupAux, if_neg (by rw [hc]; decide)]
      obtain ⟨hx, hxs⟩ := List.nodup_cons.mp hnd
      rw [ih (seen ++ [x]) hxs ?_]
      intro y hy hmem
      rcases List.mem_append.mp hmem with h | h
      · exact hout y (List.mem_cons_of_mem x hy) h
      · simp only [List.mem_singleton] at h
        exact hx (h ▸ hy)

/-- Claim C8: on a duplicate-free persisted set (the invariant
`savePausedDocs` maintains), pausing an already-paused source and activating
a not-paused source both leave the set exactly as it was, and the persisted
result never contains duplicates. -/
theorem C8_pause_idempotent (docs : List String) (source : String)
    (hnd : docs.Nodup) :
    (source ∈ docs → setDocumentStatus docs source "paused" = docs)
    ∧ (¬source ∈ docs → setDocumentStatus docs source "active" = docs)
    ∧ ∀ status, (setDocumentStatus docs source status).Nodup := by
  refine ⟨?_, ?_, ?_⟩
  · intro hmem
    have hc : (docs.contains source) = true := by simpa using hmem
    rw [setDocumentStatus]
    simp only [hc, Bool.not_true, Bool.and_false, Bool.false_eq_true, if_false]
    rw [if_neg (by decide)]
    exact jsSetDedupAux_id docs [] hnd (by simp)
  · intro hmem
    have hc : (docs.contains source) = false := by
      cases hc2 : docs.contains source with
      | false => rfl
      | true => exact absurd (by simpa using hc2) hmem
    rw [setDocumentStatus]
    simp only [hc, Bool.not_false, Bool.and_true, Bool.and_false]
    rw [if_neg (by decide), if_neg (by decide)]
    exact jsSetDedupAux_id docs [] hnd (by simp)
  · intro status
    exact (jsSetDedupAux_nodup _ []).1

/-- Witness for C8 on the concrete set ["a.pdf", "b.pdf"]. -/
theorem C8_witness :
    (["a.pdf", "b.pdf"] : List String).Nodup
    ∧ ("a.pdf" : String) ∈ ["a.pdf", "b.pdf"]
    ∧ setDocumentStatus ["a.pdf", "b.pdf"] "a.pdf" "paused" = ["a.pdf", "b.pdf"] :=
  ⟨by decide, by decide,
    (C8_pause_idempotent ["a.pdf", "b.pdf"] "a.pdf" (by decide)).1 (by decide)⟩

/-- A conversation row (`conversations` table): id and owning user. -/
structure ConversationRec where
  id : String
  userId : String
deriving DecidableEq, Repr

/-- A message row (`messages` table).  The per-message source rows that the
route eager-loads ride along with their message and carry no access logic of
their own, so they are not modelled separately. -/
structure MessageRec where
  id : String
  conversationId : String
  role : String
  content : String
  createdAt : Nat
deriving DecidableEq, Repr

/-- The relational store consumed by the conversations route. -/
structure ChatDb where
  conversations : List ConversationRec
  messages : List MessageRec
deriving DecidableEq, Repr

/-- Response of `GET /api/conversations/[conversationId]`. -/
inductive GetMessagesResponse where
  | unauthorized
  | notFound (message : String)
  | ok (msgs : List MessageRec)
deriving DecidableEq, Repr

/-- Stable insertion into a `createdAt`-ascending list. -/
def insertByTime (m : MessageRec) : List MessageRec → List MessageRec
  | [] => [m]
  | x :: xs =>
      if m.createdAt ≤ x.createdAt then m :: x :: xs else x :: insertByTime m xs

/-- `orderBy asc(createdAt)` modelled as an insertion sort. -/
def sortByCreatedAt (l : List MessageRec) : List MessageRec :=
  l.foldr insertByTime []

/-- `GET` of `app/api/conversations/[conversationId]/route.ts`: reject a
missing session; look the conversation up by id AND owner
(`findFirst(where and(id = conversationId, userId = session.user.id))`);
a miss (nonexistent or foreign conversation) is a 404 with no content;
otherwise return the conversation's messages ordered by `createdAt`. -/
def getConversationMessages (db : ChatDb) (sessionUserId : Option String)
    (conversationId : String) : GetMessagesResponse :=
  match sessionUserId with
  | none => GetMessagesResponse.unauthorized
  | some uid =>
      match db.conversations.find? (fun c => c.id == conversationId && c.userId == uid) with
      | none => GetMessagesResponse.notFound "Conversation not found or access denied"
      | some _ =>
          GetMessagesResponse.ok
            (sortByCreatedAt (db.messages.filter (fun m => m.conversationId == conversationId)))

/-- Claim C10: the conversation read returns messages only to the owner: if
no conversation with the requested id is owned by the requesting principal
the result is the 404 "not found or access denied" with no message content,
and a successful read implies such an owned conversation exists. -/
theorem C10_conversation_ownership (db : ChatDb) (uid cid : String) :
    ((¬∃ c ∈ db.conversations, c.id = cid ∧ c.userId = uid) →
       getConversationMessages db (some uid) cid
         = GetMessagesResponse.notFound "Conversation not found or access denied")
    ∧ (∀ msgs, getConversationMessages db (some uid) cid = GetMessagesResponse.ok msgs →
        ∃ c ∈ db.conversations, c.id = cid ∧ c.userId = uid) := by
  cases hf : db.conversations.find? (fun c => c.id == cid && c.userId == uid) with
  | none =>
      constructor
      · intro _
        simp [getConversationMessages, hf]
      · intro msgs h
        rw [getConversationMessages] at h
        rw [hf] at h
        cases h
  | some c =>
      have hp := List.find?_some hf
      have hmem := List.mem_of_find?_eq_some hf
      simp only [Bool.and_eq_true, beq_iff_eq] at hp
      constructor
      · intro hno
        exact absurd ⟨c, hmem, hp.1, hp.2⟩ hno
      · intro msgs _
        exact ⟨c, hmem, hp.1, hp.2⟩

/-- Witness for C10: a foreign principal reading someone else's
conversation gets the 404. -/
theorem C10_witness :
    (¬∃ c ∈ [(⟨"c1", "u1"⟩ : ConversationRec)], c.id = "c1" ∧ c.userId = "u2")
    ∧ getConversationMessages ⟨[⟨"c1", "u1"⟩], []⟩ (some "u2") "c1"
        = GetMessagesResponse.notFound "Conversation not found or access denied" :=
  ⟨by decide,
    (C10_conversation_ownership ⟨[⟨"c1", "u1"⟩], []⟩ "u2" "c1").1 (by decide)⟩
